import Mathlib

/-
Verification of the V4A patch parser/applier (src/orchestrator/v4a_patch.py)
and the context extractor (src/orchestrator/context_extractor.py).

The embedding works on Lean strings via their underlying character lists,
with structurally recursive re-implementations of the Python string
primitives the source uses (strip, split, startswith, ...), so that every
definition is executable and kernel-reducible.

Modelling conventions:
- The filesystem is an association list from paths to file text.  Reading
  a file yields its stored text (the source reads with errors='ignore';
  files are modelled as decoded text).  Directories are not modelled,
  except for one deterministic behaviour of the source's calls
  `os.makedirs(os.path.dirname(p), exist_ok=True)`: when `p` has no
  directory component, `os.path.dirname(p)` is the empty string and
  `os.makedirs('', exist_ok=True)` raises FileNotFoundError
  ("[Errno 2] No such file or directory: ''").  For any non-empty dirname
  the call is modelled as succeeding.
- Python exceptions are modelled with explicit error values; the per-hunk
  try/except of apply_patch is the `Option String` error component carried
  next to each per-hunk result.
- Python's `set` of tokens is modelled as a first-occurrence-deduplicated
  list; set intersection keeps that canonical order (the source's set
  iteration order is unspecified).
- The float comparison `overlap >= len(key_tokens) * 0.4` in the source is
  modelled as `5 * overlap >= 2 * len(key_tokens)`, which is equivalent for
  every relevant size (0.4 * n rounds to a double strictly within 1/5 of
  the exact rational, and the compared value is an integer).
-/

set_option maxRecDepth 200000

namespace V4A

/-! ## Python string primitives, re-implemented structurally -/

/-- The whitespace characters of Python's `str.strip()` / `str.split()`
(ASCII subset; the repository's patch texts are ASCII). -/
def pyIsSpace (c : Char) : Bool :=
  c == ' ' || c == '\t' || c == '\n' || c == '\r' || c == '\x0b' || c == '\x0c'

/-- Drop trailing characters satisfying `p`. -/
def dropTrail (p : Char → Bool) (cs : List Char) : List Char :=
  (cs.reverse.dropWhile p).reverse

/-- Python `str.strip()` on character lists. -/
def pyStripList (cs : List Char) : List Char :=
  dropTrail pyIsSpace (cs.dropWhile pyIsSpace)

/-- Python `str.strip()`. -/
def pyStrip (s : String) : String :=
  String.mk (pyStripList s.data)

/-- Python `str.strip(chars)`: strip any of the given characters from both
ends. -/
def pyStripChars (chars : List Char) (s : String) : String :=
  String.mk (dropTrail (fun c => chars.contains c) (s.data.dropWhile (fun c => chars.contains c)))

/-- `leadsWith pat cs` : `cs` starts with the characters `pat`. -/
def leadsWith : List Char → List Char → Bool
  | [], _ => true
  | _ :: _, [] => false
  | p :: ps, c :: cs => p == c && leadsWith ps cs

/-- Python `s.startswith(pat)`. -/
def strStarts (s pat : String) : Bool :=
  leadsWith pat.data s.data

/-- Python `s.endswith(pat)`. -/
def strEnds (s pat : String) : Bool :=
  leadsWith pat.data.reverse s.data.reverse

/-- Split a character list on a separator character, keeping empty pieces
(Python `s.split('\n')`). -/
def splitCharList (sep : Char) : List Char → List (List Char)
  | [] => [[]]
  | c :: cs =>
    match splitCharList sep cs with
    | [] => [[]]
    | h :: t => if c == sep then [] :: h :: t else (c :: h) :: t

/-- Python `s.split('\n')`. -/
def splitLines (s : String) : List String :=
  (splitCharList '\n' s.data).map String.mk

/-- Interleave a separator between character lists. -/
def intercalList (sep : List Char) : List (List Char) → List Char
  | [] => []
  | [x] => x
  | x :: y :: t => x ++ sep ++ intercalList sep (y :: t)

/-- Python `sep.join(ls)`. -/
def joinWith (sep : String) (ls : List String) : String :=
  String.mk (intercalList sep.data (ls.map String.data))

/-- Python `'\n'.join(ls)`. -/
def joinNl (ls : List String) : String :=
  joinWith "\n" ls

/-- Everything after the first occurrence of `sep` (Python
`s.split(sep, 1)[1]` for a one-character separator known to occur). -/
def afterCharList (sep : Char) : List Char → List Char
  | [] => []
  | c :: cs => if c == sep then cs else afterCharList sep cs

/-- Python `s.split('->', 1)` restricted to the first occurrence: returns
the pieces before and after the first `->`, or `none` when `->` does not
occur (in the source that case raises "not enough values to unpack"). -/
def splitArrowOnce : List Char → Option (List Char × List Char)
  | [] => none
  | '-' :: '>' :: rest => some ([], rest)
  | c :: cs => (splitArrowOnce cs).map (fun p => (c :: p.1, p.2))

/-- A regex `\w` character (ASCII subset). -/
def wordChar (c : Char) : Bool :=
  c.isAlpha || c.isDigit || c == '_'

/-- Group the maximal runs of characters satisfying `p` (accumulator holds
the current run reversed). -/
def runsAux (p : Char → Bool) : List Char → List Char → List (List Char)
  | cur, [] => if cur.isEmpty then [] else [cur.reverse]
  | cur, c :: cs =>
    if p c then runsAux p (c :: cur) cs
    else if cur.isEmpty then runsAux p [] cs
    else cur.reverse :: runsAux p [] cs

/-- `re.findall(r'\w+', s)`. -/
def tokensOf (s : String) : List String :=
  (runsAux wordChar [] s.data).map String.mk

/-- Python `s.split()` (split on whitespace runs, dropping empty pieces). -/
def pySplitWs (s : String) : List String :=
  (runsAux (fun c => !(pyIsSpace c)) [] s.data).map String.mk

/-- The source's fuzzy-match normalisation `' '.join(line.split())`. -/
def normalizeWs (s : String) : String :=
  joinWith " " (pySplitWs s)

/-- Python `s.lower()` (ASCII subset). -/
def pyLower (s : String) : String :=
  String.mk (s.data.map Char.toLower)

/-- `os.path.dirname`: the part of the path before the last '/', with
trailing slashes removed unless the head consists only of slashes; empty
when the path has no '/'. -/
def dirname (p : String) : String :=
  let cs := p.data
  if cs.contains '/' then
    let head := (cs.reverse.dropWhile (fun c => !(c == '/'))).reverse
    if head.all (fun c => c == '/') then String.mk head
    else String.mk (dropTrail (fun c => c == '/') head)
  else ""

/-- First-occurrence deduplication (canonical form of a Python `set` built
by successive insertions). -/
def dedupKeep : List String → List String
  | [] => []
  | x :: xs => if (dedupKeep xs).contains x then dedupKeep xs else x :: dedupKeep xs

/-! ## Data model (v4a_patch.py) -/

/-- V4A patch action types. -/
inductive V4AAction where
  | add
  | update
  | delete
  | move
deriving DecidableEq, Repr

/-- The `.value` string of a `V4AAction` member. -/
def V4AAction.value : V4AAction → String
  | .add => "add"
  | .update => "update"
  | .delete => "delete"
  | .move => "move"

/-- A single V4A patch hunk (the `raw_hunk` debugging field of the source
dataclass is omitted: nothing reads it). -/
structure V4AHunk where
  action : V4AAction
  file_path : String
  new_path : Option String := none
  context_header : Option String := none
  context_before : List String := []
  removed_lines : List String := []
  added_lines : List String := []
  context_after : List String := []
deriving DecidableEq, Repr

/-- One entry of an `ApplyResult.suggestions` list: either the fixed hint
attached to update-on-missing-file, or a candidate location produced by
`_suggest_similar_code`.  `overlap_count` is the numerator of the source's
`overlap_ratio` (its denominator, the number of key tokens, is the same for
every suggestion of one call, so ordering by ratio is ordering by count). -/
inductive Suggestion where
  | hint (text : String)
  | candidate (line : Nat) (context : String) (overlap_tokens : List String) (overlap_count : Nat)
deriving DecidableEq, Repr

/-- Result of applying a hunk. -/
structure ApplyResult where
  success : Bool
  action : String
  file_path : String
  line_range : Option (Nat × Nat) := none
  match_strategy : Option String := none
  error : Option String := none
  suggestions : List Suggestion := []
deriving DecidableEq, Repr

/-- The dict returned by `apply_patch`. -/
structure ApplyResults where
  success : Bool
  operations : List ApplyResult
  errors : List String
deriving DecidableEq, Repr

/-! ## Parser (class V4APatchParser) -/

/-- A body line that terminates a hunk body: its stripped form starts with
`***`. -/
def isStarLine (l : String) : Bool :=
  strStarts (pyStrip l) "***"

/-- `header.split(':', 1)[1].strip()` for an (already stripped) hunk header
line. -/
def hunkHeaderPath (header : String) : String :=
  pyStrip (String.mk (afterCharList ':' header.data))

/-- A body line that looks like a `@@ ... @@` context header
(`line.strip().startswith('@@') and line.strip().endswith('@@')`). -/
def isHeaderLine (l : String) : Bool :=
  strStarts (pyStrip l) "@@" && strEnds (pyStrip l) "@@"

/-- A body line recording a change (starts with `-` or `+`; such a raw line
can never satisfy `isHeaderLine`, whose stripped form starts with `@`). -/
def isChangeLine (l : String) : Bool :=
  strStarts l "-" || strStarts l "+"

/-- The four line lists plus context header accumulated by
`_parse_update_hunk`. -/
structure UpdateParts where
  context_header : Option String := none
  context_before : List String := []
  removed_lines : List String := []
  added_lines : List String := []
  context_after : List String := []
deriving DecidableEq, Repr

/-- One iteration of the `_parse_update_hunk` body loop.  The second
component of the state is Python's `current_section` string. -/
def updStep (st : UpdateParts × String) (l : String) : UpdateParts × String :=
  let u := st.1
  let sec := st.2
  if isHeaderLine l then
    ({ u with context_header := some (pyStrip l) }, sec)
  else if strStarts l " " then
    if sec == "before" then
      ({ u with context_before := u.context_before ++ [String.mk l.data.tail] }, sec)
    else if sec == "after" then
      ({ u with context_after := u.context_after ++ [String.mk l.data.tail] }, sec)
    else (u, sec)
  else if strStarts l "-" then
    ({ u with removed_lines := u.removed_lines ++ [String.mk l.data.tail] }, "changes")
  else if strStarts l "+" then
    ({ u with added_lines := u.added_lines ++ [String.mk l.data.tail] },
      if u.context_after.isEmpty then "after" else "changes")
  else (u, sec)

/-- `_parse_update_hunk` body classification (the caller passes the body
lines up to the next `***` line). -/
def parseUpdateBody (body : List String) : UpdateParts :=
  (body.foldl updStep ({}, "before")).1

/-- The hunk under construction while the scan is inside a hunk body.  The
Python parser realises this state with the nested body loops of
`_parse_add_hunk` / `_parse_update_hunk`; a `***` line ends the body, the
finished hunk is recorded, and the `***` line itself is dispatched again by
the main loop.  `failed` models an exception escaping `parse` (only the
malformed `Move File` header raises); `done` models the main loop's break
on `*** End Patch`. -/
inductive ParseMode where
  | top
  | inAdd (fp : String) (added : List String)
  | inUpdate (fp : String) (u : UpdateParts) (sec : String)
  | done
  | failed (e : String)
deriving DecidableEq, Repr

/-- Close the pending Add hunk. -/
def mkAddHunk (fp : String) (added : List String) : V4AHunk :=
  { action := .add, file_path := fp, added_lines := added }

/-- Close the pending Update hunk. -/
def mkUpdateHunk (fp : String) (u : UpdateParts) : V4AHunk :=
  { action := .update, file_path := fp,
    context_header := u.context_header,
    context_before := u.context_before,
    removed_lines := u.removed_lines,
    added_lines := u.added_lines,
    context_after := u.context_after }

/-- The main-loop dispatch of `V4APatchParser.parse` on one (already
recorded) line. -/
def dispatchTop (hs : List V4AHunk) (l : String) : List V4AHunk × ParseMode :=
  let s := pyStrip l
  if strStarts s "*** Add File:" then
    (hs, .inAdd (hunkHeaderPath s) [])
  else if strStarts s "*** Delete File:" then
    (hs ++ [{ action := .delete, file_path := hunkHeaderPath s }], .top)
  else if strStarts s "*** Update File:" then
    (hs, .inUpdate (hunkHeaderPath s) {} "before")
  else if strStarts s "*** Move File:" then
    let paths := pyStrip (String.mk (afterCharList ':' s.data))
    match splitArrowOnce paths.data with
    | none => (hs, .failed "not enough values to unpack (expected 2, got 1)")
    | some (o, n) =>
      (hs ++ [{ action := .move, file_path := pyStrip (String.mk o),
                new_path := some (pyStrip (String.mk n)) }], .top)
  else if strStarts s "*** End Patch" then (hs, .done)
  else (hs, .top)

/-- One line of the parser scan. -/
def parseStep (st : List V4AHunk × ParseMode) (l : String) : List V4AHunk × ParseMode :=
  match st.2 with
  | .failed _ => st
  | .done => st
  | .top => dispatchTop st.1 l
  | .inAdd fp added =>
    if isStarLine l then dispatchTop (st.1 ++ [mkAddHunk fp added]) l
    else if strStarts l "+" then (st.1, .inAdd fp (added ++ [String.mk l.data.tail]))
    else (st.1, .inAdd fp added)
  | .inUpdate fp u sec =>
    if isStarLine l then dispatchTop (st.1 ++ [mkUpdateHunk fp u]) l
    else
      let u' := updStep (u, sec) l
      (st.1, .inUpdate fp u'.1 u'.2)

/-- The scan over the lines after `*** Begin Patch`; a body left open at
end of input is closed, exactly as the Python body loops do on running out
of lines. -/
def parseLoop (lines : List String) : Except String (List V4AHunk) :=
  match lines.foldl parseStep ([], .top) with
  | (_, .failed e) => Except.error e
  | (hs, .inAdd fp added) => Except.ok (hs ++ [mkAddHunk fp added])
  | (hs, .inUpdate fp u _) => Except.ok (hs ++ [mkUpdateHunk fp u])
  | (hs, _) => Except.ok hs

/-- `V4APatchParser.parse`. -/
def parse (patch_text : String) : Except String (List V4AHunk) :=
  if !(strStarts (pyStrip patch_text) "*** Begin Patch") then
    Except.error "Invalid V4A patch: missing '*** Begin Patch' marker"
  else if !(strEnds (pyStrip patch_text) "*** End Patch") then
    Except.error "Invalid V4A patch: missing '*** End Patch' marker"
  else
    parseLoop ((splitLines patch_text).drop 1)

/-! ## Filesystem model

An association list from paths to file text; `fsWrite` shadows by
prepending, `fsRead` returns the most recent binding. -/

/-- Filesystem state: a path-to-text association list. -/
def FS : Type := List (String × String)

/-- Read a file (None when it does not exist: `os.path.exists` is
`(fsRead fs p).isSome`). -/
def fsRead : FS → String → Option String
  | [], _ => none
  | (q, c) :: t, p => if q = p then some c else fsRead t p

/-- Write (create or overwrite) a file. -/
def fsWrite (fs : FS) (p c : String) : FS :=
  (p, c) :: fs

/-- `os.remove`. -/
def fsRemove (fs : FS) (p : String) : FS :=
  fs.filter (fun e => !(e.1 == p))

/-! ## Matching strategies (class V4APatchApplier) -/

/-- `_find_exact_match`: first window of length `len(removed)` equal to the
removed lines.  Result: (start, end, strategy).  Note `List.range (n + 1 - k)`
is empty when `k > n + 1`, matching Python's empty `range`. -/
def findExactMatch (lines removed : List String) : Option (Nat × Nat × String) :=
  if removed.isEmpty then none
  else
    ((List.range (lines.length + 1 - removed.length)).find?
        (fun i => (lines.drop i).take removed.length == removed)).map
      (fun i => (i, i + removed.length, "exact"))

/-- `_find_fuzzy_match`: the same scan after collapsing whitespace runs. -/
def findFuzzyMatch (lines removed : List String) : Option (Nat × Nat × String) :=
  if removed.isEmpty then none
  else
    let searchNorm := removed.map normalizeWs
    ((List.range (lines.length + 1 - removed.length)).find?
        (fun i => ((lines.drop i).take removed.length).map normalizeWs == searchNorm)).map
      (fun i => (i, i + removed.length, "fuzzy"))

/-- One attempt of `re.search(r'@@\s*(\w+)\s+(\w+)', h)` at a fixed start
position.  `\s` and `\w` are disjoint, so the greedy scan is exact. -/
def headerTryAt : List Char → Option (String × String)
  | '@' :: '@' :: r =>
    let r1 := r.dropWhile pyIsSpace
    let w1 := r1.takeWhile wordChar
    let r2 := r1.dropWhile wordChar
    let sp := r2.takeWhile pyIsSpace
    let r3 := r2.dropWhile pyIsSpace
    let w2 := r3.takeWhile wordChar
    if !w1.isEmpty && !sp.isEmpty && !w2.isEmpty then
      some (String.mk w1, String.mk w2)
    else none
  | _ => none

/-- `re.search(r'@@\s*(\w+)\s+(\w+)', h)`: try each start position left to
right. -/
def reSearchHeader : List Char → Option (String × String)
  | [] => none
  | c :: rest =>
    match headerTryAt (c :: rest) with
    | some p => some p
    | none => reSearchHeader rest

/-- `re.match(rf'^\s*{etype}\s+{ename}', line)`: leading whitespace, the
entity type literally, at least one whitespace, then the entity name as a
prefix of the remainder (both captured from `\w+`, so they contain only
word characters and are regex-safe). -/
def lineMatchesAnchor (etype ename : String) (line : String) : Bool :=
  let r1 := line.data.dropWhile pyIsSpace
  if leadsWith etype.data r1 then
    let r2 := r1.drop etype.data.length
    if !(r2.takeWhile pyIsSpace).isEmpty then
      leadsWith ename.data (r2.dropWhile pyIsSpace)
    else false
  else false

/-- `_find_with_context_header`: parse the `@@ ... @@` header, anchor at the
first line matching the entity pattern, then exact-scan the next 100 lines. -/
def findWithContextHeader (lines : List String) (h : V4AHunk) : Option (Nat × Nat × String) :=
  match h.context_header with
  | none => none
  | some ch =>
    if ch = "" then none
    else
      match reSearchHeader ch.data with
      | none => none
      | some (etype, ename) =>
        match lines.findIdx? (lineMatchesAnchor etype ename) with
        | none => none
        | some a =>
          let window := (lines.drop a).take 100
          ((List.range (window.length + 1 - h.removed_lines.length)).find?
              (fun i => (window.drop i).take h.removed_lines.length == h.removed_lines)).map
            (fun i => (a + i, a + i + h.removed_lines.length, "context_header"))

/-- The ordered matching cascade of `_apply_update` (exact, then fuzzy,
then context header; the context-header function itself returns nothing
when the hunk has no header). -/
def locateUpdate (lines : List String) (h : V4AHunk) : Option (Nat × Nat × String) :=
  match findExactMatch lines h.removed_lines with
  | some r => some r
  | none =>
    match findFuzzyMatch lines h.removed_lines with
    | some r => some r
    | none => findWithContextHeader lines h

/-! ## Suggestions (_suggest_similar_code) -/

/-- The "significant tokens" of the removed lines: alphanumeric words
longer than 3 characters, deduplicated (the source collects them in a
`set`). -/
def keyTokensOf (removed : List String) : List String :=
  dedupKeep ((removed.flatMap tokensOf).filter (fun t => t.length > 3))

/-- The ±2-line context window text around line `i` (`lines[max(0,i-2) :
min(len,i+3)]`). -/
def windowText (lines : List String) (i : Nat) : String :=
  joinNl ((lines.drop (i - 2)).take (min lines.length (i + 3) - (i - 2)))

/-- The overlap count stored in a suggestion (the numerator of the source's
`overlap_ratio`; all ratios of one call share the denominator, so comparing
counts is comparing ratios). -/
def suggestionOverlap : Suggestion → Nat
  | .hint _ => 0
  | .candidate _ _ _ n => n

/-- Stable descending insertion by overlap (the source sorts by
`overlap_ratio` descending with Python's stable sort). -/
def insertDesc (x : Suggestion) : List Suggestion → List Suggestion
  | [] => [x]
  | y :: ys =>
    if suggestionOverlap x ≥ suggestionOverlap y then x :: y :: ys
    else y :: insertDesc x ys

/-- Stable descending insertion sort by overlap count. -/
def sortDesc : List Suggestion → List Suggestion
  | [] => []
  | x :: xs => insertDesc x (sortDesc xs)

/-- The candidate suggestion at line `i`, when the line's own tokens reach
the 40% threshold against the key tokens. -/
def candidateAt (keys : List String) (lines : List String) (i : Nat) : Option Suggestion :=
  match lines[i]? with
  | none => none
  | some line =>
    let overlap := keys.filter (fun t => (tokensOf line).contains t)
    if 5 * overlap.length ≥ 2 * keys.length then
      some (.candidate (i + 1) (windowText lines i) overlap overlap.length)
    else none

/-- `_suggest_similar_code`: candidate lines whose own token set shares at
least 40% of the key tokens, sorted by overlap descending, top 3. -/
def suggestSimilarCode (lines removed : List String) : List Suggestion :=
  if removed.isEmpty then []
  else
    let keys := keyTokensOf removed
    if keys.isEmpty then []
    else
      (sortDesc ((List.range lines.length).filterMap (candidateAt keys lines))).take 3

/-! ## Applier (class V4APatchApplier) -/

/-- Per-hunk outcome: the `ApplyResult`, the filesystem afterwards, and the
`errors`-list entry appended when the per-hunk try/except caught an
exception. -/
def HunkOutcome : Type := ApplyResult × FS × Option String

/-- `_apply_add`.  The only modelled exception is
`os.makedirs(os.path.dirname(p), exist_ok=True)` raising FileNotFoundError
when the path has no directory component (dirname is then `''`). -/
def applyAdd (fs : FS) (h : V4AHunk) (dry : Bool) : HunkOutcome :=
  if (fsRead fs h.file_path).isSome then
    ({ success := false, action := "add", file_path := h.file_path,
       error := some "File already exists" }, fs, none)
  else if dry then
    ({ success := true, action := "add", file_path := h.file_path,
       match_strategy := some "new_file" }, fs, none)
  else if dirname h.file_path = "" then
    let e := "[Errno 2] No such file or directory: ''"
    ({ success := false, action := "add", file_path := h.file_path,
       error := some e }, fs,
     some ("Error applying add to " ++ h.file_path ++ ": " ++ e))
  else
    ({ success := true, action := "add", file_path := h.file_path,
       match_strategy := some "new_file" },
     fsWrite fs h.file_path (joinNl h.added_lines), none)

/-- `_apply_delete`. -/
def applyDelete (fs : FS) (h : V4AHunk) (dry : Bool) : HunkOutcome :=
  if (fsRead fs h.file_path).isNone then
    ({ success := false, action := "delete", file_path := h.file_path,
       error := some "File does not exist" }, fs, none)
  else if dry then
    ({ success := true, action := "delete", file_path := h.file_path,
       match_strategy := some "file_delete" }, fs, none)
  else
    ({ success := true, action := "delete", file_path := h.file_path,
       match_strategy := some "file_delete" }, fsRemove fs h.file_path, none)

/-- `_apply_move`.  The parser always sets `new_path` on move hunks; a
missing `new_path` is read as the empty string. -/
def applyMove (fs : FS) (h : V4AHunk) (dry : Bool) : HunkOutcome :=
  let np := h.new_path.getD ""
  if (fsRead fs h.file_path).isNone then
    ({ success := false, action := "move", file_path := h.file_path,
       error := some "Source file does not exist" }, fs, none)
  else if (fsRead fs np).isSome then
    ({ success := false, action := "move", file_path := h.file_path,
       error := some ("Destination " ++ np ++ " already exists") }, fs, none)
  else if dry then
    ({ success := true, action := "move", file_path := h.file_path,
       match_strategy := some "file_move" }, fs, none)
  else if dirname np = "" then
    let e := "[Errno 2] No such file or directory: ''"
    ({ success := false, action := "move", file_path := h.file_path,
       error := some e }, fs,
     some ("Error applying move to " ++ h.file_path ++ ": " ++ e))
  else
    match fsRead fs h.file_path with
    | none => ({ success := false, action := "move", file_path := h.file_path,
                 error := some "Source file does not exist" }, fs, none)
    | some c =>
      ({ success := true, action := "move", file_path := h.file_path,
         match_strategy := some "file_move" },
       fsWrite (fsRemove fs h.file_path) np c, none)

/-- `_apply_update`. -/
def applyUpdate (fs : FS) (h : V4AHunk) (dry : Bool) : HunkOutcome :=
  match fsRead fs h.file_path with
  | none =>
    ({ success := false, action := "update", file_path := h.file_path,
       error := some "File does not exist",
       suggestions := [.hint "Use Add File instead"] }, fs, none)
  | some content =>
    let lines := splitLines content
    match locateUpdate lines h with
    | none =>
      ({ success := false, action := "update", file_path := h.file_path,
         error := some "Could not locate code to replace",
         suggestions := suggestSimilarCode lines h.removed_lines }, fs, none)
    | some (s, e, strat) =>
      let res : ApplyResult :=
        { success := true, action := "update", file_path := h.file_path,
          line_range := some (s, e), match_strategy := some strat }
      if dry then (res, fs, none)
      else
        (res, fsWrite fs h.file_path
          (joinNl (lines.take s ++ h.added_lines ++ lines.drop e)), none)

/-- Dispatch on the hunk's action (the per-hunk body of `apply_patch`). -/
def applyOneHunk (fs : FS) (h : V4AHunk) (dry : Bool) : HunkOutcome :=
  match h.action with
  | .add => applyAdd fs h dry
  | .update => applyUpdate fs h dry
  | .delete => applyDelete fs h dry
  | .move => applyMove fs h dry

/-- The hunk loop of `apply_patch`: accumulates operations, errors, the
running success flag, and the filesystem, in document order. -/
def applyHunksLoop (dry : Bool) :
    List ApplyResult × List String × Bool × FS → List V4AHunk →
    List ApplyResult × List String × Bool × FS
  | acc, [] => acc
  | (ops, errs, ok, fs), h :: t =>
    let r := applyOneHunk fs h dry
    applyHunksLoop dry (ops ++ [r.1], errs ++ r.2.2.toList, ok && r.1.success, r.2.1) t

/-- `V4APatchApplier.apply_patch`: parse, then attempt every hunk in order;
a parse failure short-circuits with one error entry and no operations. -/
def applyPatch (fs : FS) (patch_text : String) (dry : Bool) : ApplyResults × FS :=
  match parse patch_text with
  | Except.error e =>
    ({ success := false, operations := [], errors := ["Parse error: " ++ e] }, fs)
  | Except.ok hunks =>
    let out := applyHunksLoop dry ([], [], true, fs) hunks
    ({ success := out.2.2.1, operations := out.1, errors := out.2.1 }, out.2.2.2)

/-- The per-hunk observables the dry-run contract speaks about: success and
match strategy of each operation, in order. -/
def opsSig (r : ApplyResults) : List (Bool × Option String) :=
  r.operations.map (fun o => (o.success, o.match_strategy))

/-- The hunk loop rebuilt from the front: the same per-hunk applications in
the same order, producing the operations, the caught-exception error
entries, and the final filesystem (`applyHunksLoop` is proved equal to
this below). -/
def runHunks (dry : Bool) (fs : FS) : List V4AHunk → List ApplyResult × List String × FS
  | [] => ([], [], fs)
  | h :: t =>
    let r := applyOneHunk fs h dry
    let rest := runHunks dry r.2.1 t
    (r.1 :: rest.1, r.2.2.toList ++ rest.2.1, rest.2.2)

/-! ## Context extractor (context_extractor.py) -/

/-- A section of code with metadata (dataclass ContextSection). -/
structure ContextSection where
  lines : String
  line_start : Nat
  line_end : Nat
  symbol : Option String := none
  symbol_type : Option String := none
  reason : Option String := none
  matched_keywords : Option (List String) := none
deriving DecidableEq, Repr

/-- Complete context information for a file (dataclass FileContext).
Optional fields left at their dataclass default `None` are `none`. -/
structure FileContext where
  file_path : String
  file_exists : Bool
  action : String
  total_lines : Option Nat := none
  all_symbols : Option (List String) := none
  relevant_sections : Option (List ContextSection) := none
  full_content : Option String := none
  strategy : Option String := none
deriving DecidableEq, Repr

/-- The stopword set of `_extract_keywords`. -/
def stopwords : List String :=
  ["add", "create", "update", "modify", "write", "implement",
   "function", "class", "method", "file", "code",
   "to", "the", "a", "an", "with", "for", "in", "that", "is",
   "and", "or", "of", "from", "by", "at", "on"]

/-- `word.strip('.,!?()[]{}')`. -/
def stripPunct (w : String) : String :=
  pyStripChars ['.', ',', '!', '?', '(', ')', '[', ']', '\x7b', '\x7d'] w

/-- `ContextExtractor._extract_keywords`, mirroring the source's
append-in-a-loop shape. -/
def extractKeywords (task : String) : List String :=
  (pySplitWs (pyLower task)).foldl
    (fun acc w =>
      let clean := stripPunct w
      if clean ≠ "" ∧ ¬ stopwords.contains clean ∧ clean.length > 2 then
        acc ++ [clean]
      else acc)
    []

/-- The same keyword computation written as the spec describes it: map the
lowercased whitespace tokens through punctuation stripping, then filter out
empties, stopwords and short tokens, preserving order. -/
def specExtractKeywords (task : String) : List String :=
  ((pySplitWs (pyLower task)).map stripPunct).filter
    (fun c => c ≠ "" ∧ ¬ stopwords.contains c ∧ c.length > 2)

/-- `ContextExtractor.extract_for_task`.  The three large-file extraction
strategies (tree-sitter / ast / heuristic routing) are outside every claim
and are abstracted as the `large` parameter, invoked exactly where the
source routes to them. -/
def extractForTask (large : String → String → FileContext) (fs : FS)
    (smallFileThreshold : Nat) (file_path task : String) : FileContext :=
  match fsRead fs file_path with
  | none =>
    { file_path := file_path, file_exists := false, action := "create",
      all_symbols := some [], relevant_sections := some [],
      strategy := some "none_file_not_exists" }
  | some content =>
    if content.utf8ByteSize < smallFileThreshold then
      { file_path := file_path, file_exists := true, action := "update",
        total_lines := some (splitLines content).length,
        full_content := some content,
        strategy := some "full_file_small" }
    else large file_path task

/-! ## Spec-side definitions

These definitions follow the wording of claims (not the source); they exist
to be compared against the source-derived definitions above. -/

/-- Spec wording of claim C5: a candidate line position qualifies when the
surrounding ±2-line window shares at least 40% of the significant tokens of
the removed lines. -/
def specWindowCriterion (removed lines : List String) (i : Nat) : Bool :=
  let keys := keyTokensOf removed
  let window := (lines.drop (i - 2)).take (min lines.length (i + 3) - (i - 2))
  let windowToks := window.flatMap tokensOf
  5 * (keys.filter (fun t => windowToks.contains t)).length ≥ 2 * keys.length

/-- Spec-side classification of update-hunk body lines (used by the
amended form of claim C3): removed lines are the `-` lines in order. -/
def specRemoved (body : List String) : List String :=
  (body.filter (fun l => strStarts l "-")).map (fun l => String.mk l.data.tail)

/-- Spec-side classification: added lines are the `+` lines in order. -/
def specAdded (body : List String) : List String :=
  (body.filter (fun l => strStarts l "+")).map (fun l => String.mk l.data.tail)

/-- Spec-side classification: context lines before the first change line
(space-prefixed, not header-shaped), stripped of the leading space. -/
def specBefore (body : List String) : List String :=
  ((body.takeWhile (fun l => !(isChangeLine l))).filter
      (fun l => !(isHeaderLine l) && strStarts l " ")).map
    (fun l => String.mk l.data.tail)

mutual

/-- Amended description of `context_after` (part 1): scanning for the `+`
line that switches the parser into after-context mode. -/
def specAfterSeek : List String → List String
  | [] => []
  | l :: rest =>
    if strStarts l "+" then specAfterCollect rest else specAfterSeek rest

/-- Amended description of `context_after` (part 2): in after-mode while
nothing has been collected yet, a space line starts the collected run, a
`-` line drops back to seeking, a further `+` line keeps after-mode. -/
def specAfterCollect : List String → List String
  | [] => []
  | l :: rest =>
    if isHeaderLine l then specAfterCollect rest
    else if strStarts l " " then String.mk l.data.tail :: specAfterRun rest
    else if strStarts l "-" then specAfterSeek rest
    else specAfterCollect rest

/-- Amended description of `context_after` (part 3): once the first after
line is collected, further space lines extend the run and the first change
line ends the collection for good. -/
def specAfterRun : List String → List String
  | [] => []
  | l :: rest =>
    if isHeaderLine l then specAfterRun rest
    else if strStarts l " " then String.mk l.data.tail :: specAfterRun rest
    else if isChangeLine l then []
    else specAfterRun rest

end

/-- Spec-side `context_after` of an update-hunk body. -/
def specAfter (body : List String) : List String :=
  specAfterSeek body

/-- Spec-side `context_header`: the stripped form of the last header-shaped
body line, when one exists. -/
def specHeader : List String → Option String
  | [] => none
  | l :: t =>
    match specHeader t with
    | some h => some h
    | none => if isHeaderLine l then some (pyStrip l) else none

/-- A hunk whose real-run write step cannot hit the modelled
`os.makedirs('')` failure: add and move targets have a directory
component. -/
def hunkWriteSafe (h : V4AHunk) : Prop :=
  (h.action = .add → dirname h.file_path ≠ "") ∧
  (h.action = .move → dirname (h.new_path.getD "") ≠ "")

instance (h : V4AHunk) : Decidable (hunkWriteSafe h) := by
  unfold hunkWriteSafe
  infer_instance

/-! ## Concrete inputs used by individual claims -/

/-- The two-class file of the repository test `test_context_header_matching`:
both classes define an `add` method with identical source lines. -/
def twoClassFileText : String :=
  "class Calculator:\n    def add(self, x, y):\n        return x + y\n\nclass ScientificCalculator:\n    def add(self, x, y):\n        return x + y\n"

/-- The patch of that test: targets `@@ class ScientificCalculator @@` and
replaces the method body line. -/
def twoClassPatchText : String :=
  "*** Begin Patch\n*** Update File: calc.py\n@@ class ScientificCalculator @@\n class ScientificCalculator:\n     def add(self, x, y):\n-        return x + y\n+        result = x + y\n+        return result\n*** End Patch"

/-- What the code actually produces on that input: the *first* class's
method is modified. -/
def twoClassModifiedFirstText : String :=
  "class Calculator:\n    def add(self, x, y):\n        result = x + y\n        return result\n\nclass ScientificCalculator:\n    def add(self, x, y):\n        return x + y\n"

/-- What the claim (and the repository test) expect: only the method inside
`ScientificCalculator` modified. -/
def twoClassClaimExpectedText : String :=
  "class Calculator:\n    def add(self, x, y):\n        return x + y\n\nclass ScientificCalculator:\n    def add(self, x, y):\n        result = x + y\n        return result\n"

/-- The Add-File patch of the repository test `test_apply_add_patch`: the
target path has no directory component. -/
def bareAddPatchText : String :=
  "*** Begin Patch\n*** Add File: test_new.py\n+def test():\n+    pass\n*** End Patch"

/-- The same patch with a directory component in the path. -/
def dirAddPatchText : String :=
  "*** Begin Patch\n*** Add File: examples/test_new.py\n+def test():\n+    pass\n*** End Patch"

/-- Two Add-File hunks for the same path: a real run lets the second hunk
see the file created by the first, a dry run does not. -/
def dryRunCexPatchText : String :=
  "*** Begin Patch\n*** Add File: d/f\n+x\n*** Add File: d/f\n+y\n*** End Patch"

/-- An update whose removed line occurs nowhere in the file; its five
significant tokens are spread over two adjacent file lines. -/
def suggestionCexPatchText : String :=
  "*** Begin Patch\n*** Update File: s.py\n-aaaa bbbb cccc dddd eeee\n+zz\n*** End Patch"

/-- A delete of a missing file followed by an add: the first hunk fails,
the second is still attempted. -/
def noFailFastPatchText : String :=
  "*** Begin Patch\n*** Delete File: missing.py\n*** Add File: d/new.py\n+hi\n*** End Patch"

/-- A single well-behaved Add-File hunk (used to witness the amended
dry-run equivalence). -/
def singleAddPatchText : String :=
  "*** Begin Patch\n*** Add File: d/g\n+x\n*** End Patch"

/-- An update hunk whose removed line appears nowhere in the witness file
but shares four of its five significant tokens with the file's first
line. -/
def suggestionWitnessHunk : V4AHunk :=
  { action := .update, file_path := "s.py",
    removed_lines := ["aaaa bbbb cccc dddd eeee"], added_lines := ["zz"] }

/-- A small filesystem for the insertion-at-anchor scenario. -/
def anchorInsertFs : FS := [("a.py", "class Foo:\n    pass")]

/-- An update hunk with empty `removed_lines` and a context header naming
`class Foo`. -/
def anchorInsertHunk : V4AHunk :=
  { action := .update, file_path := "a.py",
    context_header := some "@@ class Foo @@", added_lines := ["# new"] }

/-! # Theorems -/

/-- Fold-accumulator form of `_extract_keywords` equals the map-filter
pipeline, for any starting accumulator. -/
theorem keywords_foldl_eq (ws : List String) (acc : List String) :
    ws.foldl
      (fun acc w =>
        let clean := stripPunct w
        if clean ≠ "" ∧ ¬ stopwords.contains clean ∧ clean.length > 2 then
          acc ++ [clean]
        else acc)
      acc
    = acc ++ (ws.map stripPunct).filter
        (fun c => c ≠ "" ∧ ¬ stopwords.contains c ∧ c.length > 2) := by
  induction ws generalizing acc with
  | nil => simp
  | cons w t ih =>
    simp only [List.foldl_cons, List.map_cons, List.filter_cons]
    by_cases h : stripPunct w ≠ "" ∧ ¬ stopwords.contains (stripPunct w) ∧
        (stripPunct w).length > 2
    · simp only [h, if_pos, decide_eq_true_eq] at *
      rw [ih]
      simp [h]
    · simp only [h, if_neg, decide_eq_true_eq] at *
      rw [ih]
      simp [h]

/-- C9: keyword extraction lowercases the task, splits it on whitespace,
strips surrounding punctuation, drops stopwords, empty results and tokens
of length at most 2, keeping the rest in order; on the worked example it
keeps "fibonacci", "calculate", "sequences" and drops "add", "a", "to". -/
theorem keyword_extraction_spec :
    (∀ task : String, extractKeywords task = specExtractKeywords task) ∧
    extractKeywords "Add a fibonacci function to calculate sequences" =
      ["fibonacci", "calculate", "sequences"] ∧
    "fibonacci" ∈ extractKeywords "Add a fibonacci function to calculate sequences" ∧
    "calculate" ∈ extractKeywords "Add a fibonacci function to calculate sequences" ∧
    "sequences" ∈ extractKeywords "Add a fibonacci function to calculate sequences" ∧
    "add" ∉ extractKeywords "Add a fibonacci function to calculate sequences" ∧
    "a" ∉ extractKeywords "Add a fibonacci function to calculate sequences" ∧
    "to" ∉ extractKeywords "Add a fibonacci function to calculate sequences" := by
  refine ⟨fun task => ?_, by decide, by decide, by decide, by decide, by decide, by decide, by decide⟩
  unfold extractKeywords specExtractKeywords
  exact keywords_foldl_eq (pySplitWs (pyLower task)) []

/-- C4: the claim (and the repository's own `test_context_header_matching`)
say a patch whose context header names `ScientificCalculator` modifies only
that class's `add` method even though `Calculator` has an identical one.
The code instead runs the whole-file exact-match tier first: it reports
`match_strategy = "exact"` with line range (2, 3) — inside `Calculator` —
and rewrites the first class's method, leaving `ScientificCalculator`
unchanged. -/
theorem context_header_disambiguation_code_behavior :
    (applyPatch [("calc.py", twoClassFileText)] twoClassPatchText false).1.operations.map
        (fun o => (o.success, o.match_strategy, o.line_range)) =
      [(true, some "exact", some (2, 3))] ∧
    fsRead (applyPatch [("calc.py", twoClassFileText)] twoClassPatchText false).2 "calc.py" =
      some twoClassModifiedFirstText ∧
    twoClassModifiedFirstText ≠ twoClassClaimExpectedText := by
  refine ⟨by decide, by decide, by decide⟩

/-- C7: the round-trip-add claim (and the repository tests
`test_apply_add_patch` / `test_multiple_operations`) expect adding a
non-existing file to succeed and write the `+` lines joined by newline.
For a path without a directory component the real run instead fails: the
source calls `os.makedirs(os.path.dirname(p), exist_ok=True)` with
dirname `''`, which raises FileNotFoundError; the per-hunk handler turns
it into a failed operation and no file is created (the dry run of the same
patch reports success).  With a directory component the claimed round trip
does hold. -/
theorem add_bare_filename_code_behavior :
    opsSig (applyPatch [] bareAddPatchText true).1 = [(true, some "new_file")] ∧
    (applyPatch [] bareAddPatchText false).1.success = false ∧
    (applyPatch [] bareAddPatchText false).1.operations.map (fun o => (o.success, o.error)) =
      [(false, some "[Errno 2] No such file or directory: ''")] ∧
    fsRead (applyPatch [] bareAddPatchText false).2 "test_new.py" = none ∧
    opsSig (applyPatch [] dirAddPatchText false).1 = [(true, some "new_file")] ∧
    fsRead (applyPatch [] dirAddPatchText false).2 "examples/test_new.py" =
      some "def test():\n    pass" := by
  refine ⟨by decide, by decide, by decide, by decide, by decide, by decide⟩

/-- C1 (counterexample): for the patch with two Add-File hunks for the same
path `d/f`, started from the empty filesystem, the dry run reports both
hunks successful while the real run fails the second hunk — the per-hunk
success/match-strategy values of the two runs differ. -/
theorem dry_run_equivalence_counterexample :
    opsSig (applyPatch [] dryRunCexPatchText true).1 =
      [(true, some "new_file"), (true, some "new_file")] ∧
    opsSig (applyPatch [] dryRunCexPatchText false).1 =
      [(true, some "new_file"), (false, none)] ∧
    opsSig (applyPatch [] dryRunCexPatchText true).1 ≠
      opsSig (applyPatch [] dryRunCexPatchText false).1 := by
  refine ⟨by decide, by decide, by decide⟩

/-- C3 (counterexample): in the body `[" c", "-x", " a"]` a context line
follows a remove line, so by the claim it should land in `context_after`;
the parser instead drops it (`current_section` stays `'changes'` after a
`-` line), leaving `context_after` empty. -/
theorem update_body_classification_counterexample :
    parseUpdateBody [" c", "-x", " a"] =
      { context_header := none, context_before := ["c"], removed_lines := ["x"],
        added_lines := [], context_after := [] } ∧
    (parseUpdateBody [" c", "-x", " a"]).context_after ≠ ["a"] := by
  refine ⟨by decide, by decide⟩

/-- C5 (counterexample): the claim says a candidate line qualifies when its
±2-line *window* shares at least 40% of the significant tokens.  In the
file `"aaaa\nbbbb"` with removed line `"aaaa bbbb cccc dddd eeee"`, the
window around line 0 shares 2 of 5 tokens (40%), yet the code returns no
suggestions at all: it measures the overlap on each single line (1 of 5),
not on the window. -/
theorem failed_match_suggestions_counterexample :
    (applyPatch [("s.py", "aaaa\nbbbb")] suggestionCexPatchText false).1.operations.map
        (fun o => (o.success, o.error, o.suggestions)) =
      [(false, some "Could not locate code to replace", [])] ∧
    specWindowCriterion ["aaaa bbbb cccc dddd eeee"] ["aaaa", "bbbb"] 0 = true := by
  refine ⟨by decide, by decide⟩

/-- C6: parsing fails with a format error whenever the whitespace-trimmed
text does not begin with `*** Begin Patch` or does not end with
`*** End Patch`; and whenever parsing fails (for any reason),
`apply_patch` returns `success = false` with exactly one error entry and an
empty operations list — no hunk is attempted. -/
theorem parse_marker_errors_short_circuit :
    (∀ text : String,
      (strStarts (pyStrip text) "*** Begin Patch" = false ∨
       strEnds (pyStrip text) "*** End Patch" = false) →
      ∃ e, parse text = Except.error e) ∧
    (∀ (fs : FS) (text : String) (dry : Bool) (e : String),
      parse text = Except.error e →
      applyPatch fs text dry =
        ({ success := false, operations := [],
           errors := ["Parse error: " ++ e] }, fs) ∧
      (applyPatch fs text dry).1.errors.length = 1) := by
  constructor
  · intro text h
    unfold parse
    rcases h with h | h
    · rw [h]
      exact ⟨_, rfl⟩
    · cases h1 : strStarts (pyStrip text) "*** Begin Patch"
      · exact ⟨_, rfl⟩
      · rw [h]
        exact ⟨_, rfl⟩
  · intro fs text dry e h
    unfold applyPatch
    rw [h]
    exact ⟨rfl, rfl⟩

/-- Witness for C6 at the input `"bogus"`. -/
theorem parse_marker_errors_short_circuit_witness :
    (∃ e, parse "bogus" = Except.error e) ∧
    applyPatch [] "bogus" false =
      ({ success := false, operations := [],
         errors := ["Parse error: Invalid V4A patch: missing '*** Begin Patch' marker"] },
       []) ∧
    (applyPatch [] "bogus" false).1.errors.length = 1 :=
  ⟨parse_marker_errors_short_circuit.1 "bogus" (Or.inl (by decide)),
   (parse_marker_errors_short_circuit.2 [] "bogus" false
      "Invalid V4A patch: missing '*** Begin Patch' marker" rfl).1,
   (parse_marker_errors_short_circuit.2 [] "bogus" false
      "Invalid V4A patch: missing '*** Begin Patch' marker" rfl).2⟩

/-- C8: for an existing file smaller than the configured threshold,
`extract_for_task` returns the full-file short-circuit: strategy
`full_file_small`, `full_content` equal to the file's entire text, and no
relevant sections (the field keeps its dataclass default `None`), for every
task description. -/
theorem small_file_shortcut
    (large : String → String → FileContext) (fs : FS) (threshold : Nat)
    (p task content : String)
    (hread : fsRead fs p = some content)
    (hsize : content.utf8ByteSize < threshold) :
    extractForTask large fs threshold p task =
      { file_path := p, file_exists := true, action := "update",
        total_lines := some (splitLines content).length,
        full_content := some content, strategy := some "full_file_small" } ∧
    (extractForTask large fs threshold p task).strategy = some "full_file_small" ∧
    (extractForTask large fs threshold p task).full_content = some content ∧
    (extractForTask large fs threshold p task).relevant_sections = none ∧
    (extractForTask large fs threshold p task).relevant_sections.getD [] = [] ∧
    (∀ task' : String,
      extractForTask large fs threshold p task = extractForTask large fs threshold p task') := by
  have key : extractForTask large fs threshold p task =
      { file_path := p, file_exists := true, action := "update",
        total_lines := some (splitLines content).length,
        full_content := some content, strategy := some "full_file_small" } := by
    unfold extractForTask
    rw [hread]
    simp [hsize]
  refine ⟨key, by rw [key], by rw [key], by rw [key], by rw [key]; rfl, fun task' => ?_⟩
  have key' : extractForTask large fs threshold p task' =
      { file_path := p, file_exists := true, action := "update",
        total_lines := some (splitLines content).length,
        full_content := some content, strategy := some "full_file_small" } := by
    unfold extractForTask
    rw [hread]
    simp [hsize]
  rw [key, key']

/-- Witness for C8: a 22-byte file against the default 5 KiB threshold. -/
theorem small_file_shortcut_witness :
    fsRead [("f.py", "def hello():\n    pass")] "f.py" = some "def hello():\n    pass" ∧
    ("def hello():\n    pass" : String).utf8ByteSize < 5 * 1024 ∧
    extractForTask (fun _ _ => { file_path := "", file_exists := false, action := "" })
        [("f.py", "def hello():\n    pass")] (5 * 1024) "f.py" "Test" =
      { file_path := "f.py", file_exists := true, action := "update",
        total_lines := some 2,
        full_content := some "def hello():\n    pass",
        strategy := some "full_file_small" } :=
  ⟨by decide, by decide,
   (small_file_shortcut (fun _ _ => { file_path := "", file_exists := false, action := "" })
      [("f.py", "def hello():\n    pass")] (5 * 1024) "f.py" "Test"
      "def hello():\n    pass" (by decide) (by decide)).1⟩

/-- Every per-hunk result carries the hunk's action string and file path,
whatever the outcome branch. -/
theorem applyOneHunk_action_path (fs : FS) (h : V4AHunk) (dry : Bool) :
    (applyOneHunk fs h dry).1.action = h.action.value ∧
    (applyOneHunk fs h dry).1.file_path = h.file_path := by
  cases hact : h.action <;>
    simp only [applyOneHunk, hact, applyAdd, applyDelete, applyMove, applyUpdate,
      V4AAction.value] <;>
    (repeat' split) <;> simp

/-- A dry-run hunk application leaves the filesystem untouched. -/
theorem applyOneHunk_dry_fs (fs : FS) (h : V4AHunk) :
    (applyOneHunk fs h true).2.1 = fs := by
  cases hact : h.action <;>
    simp only [applyOneHunk, hact, applyAdd, applyDelete, applyMove, applyUpdate] <;>
    (repeat' split) <;> simp_all

/-- A dry-run hunk application never records a caught exception. -/
theorem applyOneHunk_dry_err (fs : FS) (h : V4AHunk) :
    (applyOneHunk fs h true).2.2 = none := by
  cases hact : h.action <;>
    simp only [applyOneHunk, hact, applyAdd, applyDelete, applyMove, applyUpdate] <;>
    (repeat' split) <;> simp_all

/-- The accumulator loop equals the front-built run: the accumulated lists
are followed by the run's lists, and the flag is the conjunction of the
starting flag with all of the run's success flags. -/
theorem applyHunksLoop_eq_runHunks (dry : Bool) (hs : List V4AHunk) :
    ∀ (ops : List ApplyResult) (errs : List String) (ok : Bool) (fs : FS),
      applyHunksLoop dry (ops, errs, ok, fs) hs =
        (ops ++ (runHunks dry fs hs).1,
         errs ++ (runHunks dry fs hs).2.1,
         ok && (runHunks dry fs hs).1.all (·.success),
         (runHunks dry fs hs).2.2) := by
  induction hs with
  | nil => intro ops errs ok fs; simp [applyHunksLoop, runHunks]
  | cons h t ih =>
    intro ops errs ok fs
    simp only [applyHunksLoop, runHunks]
    rw [ih]
    simp [Bool.and_assoc]

/-- The canonical run: one operation per hunk, each obtained by actually
applying that hunk to the filesystem left by its predecessors. -/
theorem runHunks_idx (dry : Bool) (hs : List V4AHunk) : ∀ fs : FS,
    (runHunks dry fs hs).1.length = hs.length ∧
    ∀ i, i < hs.length → ∃ (fsi : FS) (h : V4AHunk), hs[i]? = some h ∧
      (runHunks dry fs hs).1[i]? = some (applyOneHunk fsi h dry).1 := by
  induction hs with
  | nil => intro fs; exact ⟨rfl, fun i hi => absurd hi (by simp)⟩
  | cons h t ih =>
    intro fs
    obtain ⟨ihlen, ihidx⟩ := ih (applyOneHunk fs h dry).2.1
    refine ⟨by simp [runHunks, ihlen], fun i hi => ?_⟩
    cases i with
    | zero => exact ⟨fs, h, by simp, by simp [runHunks]⟩
    | succ j =>
      obtain ⟨fsj, hj, hj1, hj2⟩ := ihidx j (by simpa using hi)
      exact ⟨fsj, hj, by simpa using hj1, by simpa [runHunks] using hj2⟩

/-- C2: when the patch parses, `apply_patch` produces exactly one operation
per hunk, in document order, each one the result of actually applying that
hunk (so no earlier failure aborts the loop and no hunk-level failure
escapes the call — the loop is a total function into per-hunk results),
and the overall success flag is the conjunction of the per-hunk success
flags. -/
theorem apply_patch_no_fail_fast (fs : FS) (text : String) (dry : Bool)
    (hs : List V4AHunk) (hparse : parse text = Except.ok hs) :
    (applyPatch fs text dry).1.operations.length = hs.length ∧
    (∀ i, i < hs.length → ∃ (fsi : FS) (h : V4AHunk), hs[i]? = some h ∧
      (applyPatch fs text dry).1.operations[i]? = some (applyOneHunk fsi h dry).1 ∧
      (applyOneHunk fsi h dry).1.action = h.action.value ∧
      (applyOneHunk fsi h dry).1.file_path = h.file_path) ∧
    (applyPatch fs text dry).1.success =
      (applyPatch fs text dry).1.operations.all (·.success) := by
  have hrun := runHunks_idx dry hs fs
  have happ : (applyPatch fs text dry).1 =
      { success := (runHunks dry fs hs).1.all (·.success),
        operations := (runHunks dry fs hs).1,
        errors := (runHunks dry fs hs).2.1 } := by
    unfold applyPatch
    rw [hparse]
    simp only [applyHunksLoop_eq_runHunks]
    simp
  rw [happ]
  refine ⟨hrun.1, fun i hi => ?_, rfl⟩
  obtain ⟨fsi, h, h1, h2⟩ := hrun.2 i hi
  exact ⟨fsi, h, h1, h2, applyOneHunk_action_path fsi h dry⟩

/-- Witness for C2: a delete-of-missing-file hunk followed by an add; the
first fails, the second is still attempted, and the overall flag is the
conjunction (false). -/
theorem apply_patch_no_fail_fast_witness :
    (applyPatch [] noFailFastPatchText false).1.operations.length = 2 ∧
    (applyPatch [] noFailFastPatchText false).1.success =
      (applyPatch [] noFailFastPatchText false).1.operations.all (·.success) := by
  have hmain := apply_patch_no_fail_fast [] noFailFastPatchText false
    [{ action := .delete, file_path := "missing.py" },
     { action := .add, file_path := "d/new.py", added_lines := ["hi"] }] rfl
  exact ⟨hmain.1, hmain.2.2⟩

/-- Dry and real application of one hunk agree on success and match
strategy, provided the hunk cannot hit the `os.makedirs('')` failure (which
only the real run executes). -/
theorem applyOneHunk_dry_sig (fs : FS) (h : V4AHunk) (hsafe : hunkWriteSafe h) :
    ((applyOneHunk fs h true).1.success, (applyOneHunk fs h true).1.match_strategy) =
      ((applyOneHunk fs h false).1.success, (applyOneHunk fs h false).1.match_strategy) := by
  obtain ⟨ha, hm⟩ := hsafe
  cases hact : h.action
  · have hd : dirname h.file_path ≠ "" := ha hact
    by_cases hex : (fsRead fs h.file_path).isSome <;>
      simp [applyOneHunk, hact, applyAdd, hex, hd]
  · cases hread : fsRead fs h.file_path with
    | none => simp [applyOneHunk, hact, applyUpdate, hread]
    | some c =>
      cases hloc : locateUpdate (splitLines c) h with
      | none => simp [applyOneHunk, hact, applyUpdate, hread, hloc]
      | some r =>
        obtain ⟨s, e, strat⟩ := r
        simp [applyOneHunk, hact, applyUpdate, hread, hloc]
  · by_cases hex : (fsRead fs h.file_path).isNone <;>
      simp [applyOneHunk, hact, applyDelete, hex]
  · have hd : dirname (h.new_path.getD "") ≠ "" := hm hact
    cases hsrc : fsRead fs h.file_path with
    | none => simp [applyOneHunk, hact, applyMove, hsrc]
    | some c =>
      by_cases hdst : (fsRead fs (h.new_path.getD "")).isSome <;>
        simp [applyOneHunk, hact, applyMove, hsrc, hdst, hd]

/-- The hunk loop with `dry = true` ends in the filesystem it started
from. -/
theorem applyHunksLoop_dry_fs (hs : List V4AHunk) :
    ∀ (ops : List ApplyResult) (errs : List String) (ok : Bool) (fs : FS),
      (applyHunksLoop true (ops, errs, ok, fs) hs).2.2.2 = fs := by
  induction hs with
  | nil => intro ops errs ok fs; rfl
  | cons h t ih =>
    intro ops errs ok fs
    simp only [applyHunksLoop]
    rw [ih]
    exact applyOneHunk_dry_fs fs h

/-- C1 (amended): a dry run always leaves every file byte-for-byte
unchanged; and for a patch that parses to at most one hunk whose add/move
target has a directory component (so the real run's directory creation
cannot raise), the dry run returns the same per-hunk success and
match-strategy values as the real run started from the same state.  (The
counterexample shows the unrestricted claim fails for interacting
multi-hunk patches.) -/
theorem dry_run_amended_equivalence (fs : FS) (text : String) :
    (∀ p : String, fsRead (applyPatch fs text true).2 p = fsRead fs p) ∧
    (∀ hs : List V4AHunk, parse text = Except.ok hs → hs.length ≤ 1 →
      (∀ h ∈ hs, hunkWriteSafe h) →
      opsSig (applyPatch fs text true).1 = opsSig (applyPatch fs text false).1) := by
  constructor
  · intro p
    unfold applyPatch
    cases hparse : parse text with
    | error e => rfl
    | ok hs =>
      simp only
      rw [applyHunksLoop_dry_fs]
  · intro hs hparse hlen hsafe
    have happ : ∀ dry : Bool, (applyPatch fs text dry).1 =
        { success := (runHunks dry fs hs).1.all (·.success),
          operations := (runHunks dry fs hs).1,
          errors := (runHunks dry fs hs).2.1 } := by
      intro dry
      unfold applyPatch
      rw [hparse]
      simp only [applyHunksLoop_eq_runHunks]
      simp
    match hs, hlen with
    | [], _ => rw [happ true, happ false]; rfl
    | [h], _ =>
      rw [happ true, happ false]
      have hsig := applyOneHunk_dry_sig fs h (hsafe h (by simp))
      simp only [opsSig, runHunks, List.map]
      rw [Prod.ext_iff] at hsig
      simp only at hsig
      rw [hsig.1, hsig.2]

/-- Witness for C1 at a single Add-File hunk with a directory component. -/
theorem dry_run_amended_equivalence_witness :
    fsRead (applyPatch [] singleAddPatchText true).2 "d/g" = none ∧
    opsSig (applyPatch [] singleAddPatchText true).1 =
      opsSig (applyPatch [] singleAddPatchText false).1 := by
  constructor
  · rw [(dry_run_amended_equivalence [] singleAddPatchText).1 "d/g"]
    rfl
  · exact (dry_run_amended_equivalence [] singleAddPatchText).2
      [{ action := .add, file_path := "d/g", added_lines := ["x"] }] rfl
      (by decide) (by decide)

/-- C10: for an update hunk with empty `removed_lines` and a context header
that resolves to an entity `kind name` anchored at the first matching line
`a`, the exact and fuzzy tiers never match, both runs succeed with
`match_strategy = "context_header"` and `line_range = (a, a)`, the dry run
leaves the filesystem unchanged, and the real run inserts `added_lines`
immediately before the anchor line, leaving every other line unchanged. -/
theorem empty_removed_context_header_insertion
    (fs : FS) (h : V4AHunk) (content kind name ch : String) (a : Nat)
    (hact : h.action = .update)
    (hrem : h.removed_lines = [])
    (hch : h.context_header = some ch)
    (hre : reSearchHeader ch.data = some (kind, name))
    (hread : fsRead fs h.file_path = some content)
    (hanchor : (splitLines content).findIdx? (lineMatchesAnchor kind name) = some a) :
    findExactMatch (splitLines content) h.removed_lines = none ∧
    findFuzzyMatch (splitLines content) h.removed_lines = none ∧
    (applyOneHunk fs h true).1 =
      { success := true, action := "update", file_path := h.file_path,
        line_range := some (a, a), match_strategy := some "context_header" } ∧
    (applyOneHunk fs h true).2.1 = fs ∧
    (applyOneHunk fs h false).1 =
      { success := true, action := "update", file_path := h.file_path,
        line_range := some (a, a), match_strategy := some "context_header" } ∧
    (applyOneHunk fs h false).2.1 =
      fsWrite fs h.file_path
        (joinNl ((splitLines content).take a ++ h.added_lines ++ (splitLines content).drop a)) := by
  have hexact : findExactMatch (splitLines content) h.removed_lines = none := by
    rw [hrem]; rfl
  have hfuzzy : findFuzzyMatch (splitLines content) h.removed_lines = none := by
    rw [hrem]; rfl
  have hchne : ¬ ch = "" := by
    intro he
    rw [he] at hre
    exact Option.noConfusion hre
  have hheader : findWithContextHeader (splitLines content) h =
      some (a, a, "context_header") := by
    unfold findWithContextHeader
    rw [hch]
    simp only [if_neg hchne]
    rw [hre]
    dsimp only
    rw [hanchor]
    dsimp only
    rw [hrem]
    simp only [List.length_nil, Nat.sub_zero, List.take_zero, Nat.add_zero]
    rw [List.range_succ_eq_map]
    simp [List.find?]
  have hloc : locateUpdate (splitLines content) h = some (a, a, "context_header") := by
    unfold locateUpdate
    rw [hexact, hfuzzy, hheader]
  refine ⟨hexact, hfuzzy, ?_, ?_, ?_, ?_⟩ <;>
    simp [applyOneHunk, hact, applyUpdate, hread, hloc]

/-- Witness for C10: inserting a comment line before `class Foo`. -/
theorem empty_removed_context_header_insertion_witness :
    (applyOneHunk anchorInsertFs anchorInsertHunk false).1 =
      { success := true, action := "update", file_path := "a.py",
        line_range := some (0, 0), match_strategy := some "context_header" } ∧
    (applyOneHunk anchorInsertFs anchorInsertHunk false).2.1 =
      fsWrite anchorInsertFs "a.py" "# new\nclass Foo:\n    pass" := by
  have hmain := empty_removed_context_header_insertion anchorInsertFs anchorInsertHunk
    "class Foo:\n    pass" "class" "Foo" "@@ class Foo @@" 0
    rfl rfl rfl (by decide) (by decide) (by decide)
  refine ⟨hmain.2.2.2.2.1, ?_⟩
  rw [hmain.2.2.2.2.2]
  rfl

/-- Dropping trailing characters keeps an initial character the predicate
rejects. -/
theorem dropTrail_cons_of_neg (p : Char → Bool) (c : Char) (cs : List Char)
    (hc : p c = false) :
    dropTrail p (c :: cs) = c :: dropTrail p cs := by
  unfold dropTrail
  rw [List.reverse_cons, List.dropWhile_append]
  split
  · next hemp =>
    rw [List.isEmpty_iff] at hemp
    rw [hemp, List.dropWhile_cons]
    simp [hc]
  · next hemp =>
    rw [List.reverse_append]
    simp

/-- `leadsWith` with a one-character pattern tests the head. -/
theorem leadsWith_single (c : Char) (cs : List Char) :
    leadsWith [c] cs = match cs with | [] => false | x :: _ => c == x := by
  cases cs <;> simp [leadsWith]

/-- Stripping a string that starts with a non-space character keeps that
character in front. -/
theorem pyStripList_cons_of_nonspace (c : Char) (cs : List Char)
    (hc : pyIsSpace c = false) :
    pyStripList (c :: cs) = c :: dropTrail pyIsSpace cs := by
  unfold pyStripList
  rw [List.dropWhile_cons]
  rw [if_neg (by simp [hc])]
  exact dropTrail_cons_of_neg _ _ _ hc

/-- The four raw-line categories of the update-body loop exclude each
other: a line has at most one relevant first character, and a line whose
first character is `-` or `+` can never be header-shaped (its stripped form
still starts with that character, not with `@`). -/
theorem rawHead_class (l : String) :
    (strStarts l " " = true → strStarts l "-" = false ∧ strStarts l "+" = false) ∧
    (strStarts l "-" = true →
      strStarts l " " = false ∧ strStarts l "+" = false ∧ isHeaderLine l = false) ∧
    (strStarts l "+" = true →
      strStarts l " " = false ∧ strStarts l "-" = false ∧ isHeaderLine l = false) := by
  cases hl : l.data with
  | nil =>
    refine ⟨fun h => ?_, fun h => ?_, fun h => ?_⟩ <;>
      (exfalso; rw [strStarts, hl] at h; exact absurd h (by decide))
  | cons x xs =>
    have hsp : strStarts l " " = (' ' == x) := by
      rw [strStarts, hl, show (" " : String).data = [' '] from rfl, leadsWith_single]
    have hda : strStarts l "-" = ('-' == x) := by
      rw [strStarts, hl, show ("-" : String).data = ['-'] from rfl, leadsWith_single]
    have hpl : strStarts l "+" = ('+' == x) := by
      rw [strStarts, hl, show ("+" : String).data = ['+'] from rfl, leadsWith_single]
    have hhead : ∀ c : Char, pyIsSpace c = false → ('@' == c) = false →
        l.data = c :: xs → isHeaderLine l = false := by
      intro c hcs hcat hlc
      unfold isHeaderLine pyStrip
      rw [hlc, pyStripList_cons_of_nonspace c xs hcs]
      have hfalse : strStarts (String.mk (c :: dropTrail pyIsSpace xs)) "@@" = false := by
        rw [strStarts, show ("@@" : String).data = ['@', '@'] from rfl]
        show leadsWith ['@', '@'] (c :: dropTrail pyIsSpace xs) = false
        simp [leadsWith, hcat]
      rw [hfalse]
      rfl
    refine ⟨fun h => ?_, fun h => ?_, fun h => ?_⟩
    · have hx : x = ' ' := (eq_of_beq (hsp ▸ h)).symm
      subst hx
      exact ⟨by rw [hda]; rfl, by rw [hpl]; rfl⟩
    · have hx : x = '-' := (eq_of_beq (hda ▸ h)).symm
      exact ⟨by rw [hsp, hx]; rfl, by rw [hpl, hx]; rfl,
        hhead '-' rfl (by decide) (by rw [← hx]; exact hl)⟩
    · have hx : x = '+' := (eq_of_beq (hpl ▸ h)).symm
      exact ⟨by rw [hsp, hx]; rfl, by rw [hda, hx]; rfl,
        hhead '+' rfl (by decide) (by rw [← hx]; exact hl)⟩

/-- `updStep` on a header-shaped line. -/
theorem updStep_header (st : UpdateParts × String) (l : String)
    (hh : isHeaderLine l = true) :
    updStep st l = ({ st.1 with context_header := some (pyStrip l) }, st.2) := by
  simp [updStep, hh]

/-- `updStep` on a context line. -/
theorem updStep_space (st : UpdateParts × String) (l : String)
    (hh : isHeaderLine l = false) (hs : strStarts l " " = true) :
    updStep st l =
      (if st.2 == "before" then
        ({ st.1 with context_before := st.1.context_before ++ [String.mk l.data.tail] }, st.2)
      else if st.2 == "after" then
        ({ st.1 with context_after := st.1.context_after ++ [String.mk l.data.tail] }, st.2)
      else (st.1, st.2)) := by
  simp [updStep, hh, hs]

/-- `updStep` on a remove line. -/
theorem updStep_dash (st : UpdateParts × String) (l : String)
    (hd : strStarts l "-" = true) :
    updStep st l =
      ({ st.1 with removed_lines := st.1.removed_lines ++ [String.mk l.data.tail] },
       "changes") := by
  obtain ⟨hs, hp, hh⟩ := (rawHead_class l).2.1 hd
  simp [updStep, hh, hs, hd]

/-- `updStep` on an add line. -/
theorem updStep_plus (st : UpdateParts × String) (l : String)
    (hp : strStarts l "+" = true) :
    updStep st l =
      ({ st.1 with added_lines := st.1.added_lines ++ [String.mk l.data.tail] },
       if st.1.context_after.isEmpty then "after" else "changes") := by
  obtain ⟨hs, hd, hh⟩ := (rawHead_class l).2.2 hp
  simp [updStep, hh, hs, hd, hp]

/-- `updStep` on any other line does nothing. -/
theorem updStep_other (st : UpdateParts × String) (l : String)
    (hh : isHeaderLine l = false) (hs : strStarts l " " = false)
    (hd : strStarts l "-" = false) (hp : strStarts l "+" = false) :
    updStep st l = st := by
  simp [updStep, hh, hs, hd, hp]

/-- A header-shaped line does not start with `-`. -/
theorem header_not_dash {l : String} (hh : isHeaderLine l = true) :
    strStarts l "-" = false := by
  cases hdv : strStarts l "-"
  · rfl
  · exact absurd hh (by simp [((rawHead_class l).2.1 hdv).2.2])

/-- A header-shaped line does not start with `+`. -/
theorem header_not_plus {l : String} (hh : isHeaderLine l = true) :
    strStarts l "+" = false := by
  cases hpv : strStarts l "+"
  · rfl
  · exact absurd hh (by simp [((rawHead_class l).2.2 hpv).2.2])

/-- The body fold's `context_header` is the last header-shaped line, or the
starting value when there is none. -/
theorem updFold_header_eq (body : List String) : ∀ st : UpdateParts × String,
    ((body.foldl updStep st).1).context_header =
      match specHeader body with
      | some h => some h
      | none => st.1.context_header := by
  induction body with
  | nil => intro st; simp [specHeader]
  | cons l t ih =>
    intro st
    rw [List.foldl_cons]
    cases hh : isHeaderLine l with
    | true =>
      rw [updStep_header st l hh, ih]
      cases hsp : specHeader t <;> simp [specHeader, hh, hsp]
    | false =>
      have hkeep : ((updStep st l).1).context_header = st.1.context_header := by
        simp only [updStep, hh]
        (repeat' split) <;> simp_all
      rw [ih, hkeep]
      cases hsp : specHeader t <;> simp [specHeader, hh, hsp]

/-- The body fold appends exactly the `-` lines to `removed_lines` and the
`+` lines to `added_lines`, in order, whatever the starting state. -/
theorem updFold_removed_added (body : List String) : ∀ st : UpdateParts × String,
    ((body.foldl updStep st).1).removed_lines = st.1.removed_lines ++ specRemoved body ∧
    ((body.foldl updStep st).1).added_lines = st.1.added_lines ++ specAdded body := by
  induction body with
  | nil => intro st; simp [specRemoved, specAdded]
  | cons l t ih =>
    intro st
    rw [List.foldl_cons]
    cases hh : isHeaderLine l with
    | true =>
      rw [updStep_header st l hh]
      obtain ⟨ih1, ih2⟩ := ih ({ st.1 with context_header := some (pyStrip l) }, st.2)
      rw [ih1, ih2]
      simp [specRemoved, specAdded, List.filter_cons, header_not_dash hh, header_not_plus hh]
    | false =>
      cases hsv : strStarts l " " with
      | true =>
        obtain ⟨hdf, hpf⟩ := (rawHead_class l).1 hsv
        have hkeep : ((updStep st l).1).removed_lines = st.1.removed_lines ∧
            ((updStep st l).1).added_lines = st.1.added_lines := by
          simp only [updStep, hh, hsv]
          (repeat' split) <;> simp_all
        obtain ⟨ih1, ih2⟩ := ih (updStep st l)
        rw [ih1, ih2, hkeep.1, hkeep.2]
        simp [specRemoved, specAdded, List.filter_cons, hdf, hpf]
      | false =>
        cases hdv : strStarts l "-" with
        | true =>
          rw [updStep_dash st l hdv]
          obtain ⟨ih1, ih2⟩ := ih
            ({ st.1 with removed_lines := st.1.removed_lines ++ [String.mk l.data.tail] },
             "changes")
          rw [ih1, ih2]
          have hpf := ((rawHead_class l).2.1 hdv).2.1
          simp [specRemoved, specAdded, List.filter_cons, hdv, hpf]
        | false =>
          cases hpv : strStarts l "+" with
          | true =>
            rw [updStep_plus st l hpv]
            obtain ⟨ih1, ih2⟩ := ih
              ({ st.1 with added_lines := st.1.added_lines ++ [String.mk l.data.tail] },
               if st.1.context_after.isEmpty then "after" else "changes")
            rw [ih1, ih2]
            simp [specRemoved, specAdded, List.filter_cons, hdv, hpv]
          | false =>
            rw [updStep_other st l hh hsv hdv hpv]
            obtain ⟨ih1, ih2⟩ := ih st
            rw [ih1, ih2]
            simp [specRemoved, specAdded, List.filter_cons, hdv, hpv]

/-- Once the body fold has left the `before` section it never appends to
`context_before` again. -/
theorem updFold_before_stuck (body : List String) : ∀ st : UpdateParts × String,
    (st.2 = "changes" ∨ st.2 = "after") →
    ((body.foldl updStep st).1).context_before = st.1.context_before := by
  induction body with
  | nil => intro st _; rfl
  | cons l t ih =>
    intro st hsec
    rw [List.foldl_cons]
    cases hh : isHeaderLine l with
    | true => rw [updStep_header st l hh]; exact ih _ hsec
    | false =>
      cases hsv : strStarts l " " with
      | true =>
        rw [updStep_space st l hh hsv]
        rcases hsec with h2 | h2 <;> rw [h2] <;> simp
        · exact ih _ (Or.inl rfl)
        · exact ih _ (Or.inr rfl)
      | false =>
        cases hdv : strStarts l "-" with
        | true => rw [updStep_dash st l hdv]; exact ih _ (Or.inl rfl)
        | false =>
          cases hpv : strStarts l "+" with
          | true =>
            rw [updStep_plus st l hpv]
            cases hie : st.1.context_after.isEmpty <;> simp [hie]
            · exact ih _ (Or.inl rfl)
            · exact ih _ (Or.inr rfl)
          | false => rw [updStep_other st l hh hsv hdv hpv]; exact ih st hsec

/-- From the `before` section, the body fold appends exactly the space
lines preceding the first change line to `context_before`. -/
theorem updFold_before_run (body : List String) : ∀ u : UpdateParts,
    ((body.foldl updStep (u, "before")).1).context_before =
      u.context_before ++ specBefore body := by
  induction body with
  | nil => intro u; simp [specBefore]
  | cons l t ih =>
    intro u
    rw [List.foldl_cons]
    cases hh : isHeaderLine l with
    | true =>
      rw [updStep_header (u, "before") l hh, ih]
      have hch : isChangeLine l = false := by
        simp [isChangeLine, header_not_dash hh, header_not_plus hh]
      simp [specBefore, List.takeWhile_cons, List.filter_cons, hch, hh]
    | false =>
      cases hsv : strStarts l " " with
      | true =>
        obtain ⟨hdf, hpf⟩ := (rawHead_class l).1 hsv
        have hch : isChangeLine l = false := by simp [isChangeLine, hdf, hpf]
        rw [updStep_space (u, "before") l hh hsv]
        simp only [show (("before" : String) == "before") = true from rfl, if_true]
        rw [ih]
        simp [specBefore, List.takeWhile_cons, List.filter_cons, hch, hh, hsv]
      | false =>
        cases hdv : strStarts l "-" with
        | true =>
          rw [updStep_dash (u, "before") l hdv]
          rw [updFold_before_stuck t _ (Or.inl rfl)]
          simp [specBefore, List.takeWhile_cons, isChangeLine, hdv]
        | false =>
          cases hpv : strStarts l "+" with
          | true =>
            rw [updStep_plus (u, "before") l hpv]
            have hch : isChangeLine l = true := by simp [isChangeLine, hpv]
            cases hie : u.context_after.isEmpty <;>
              simp only [hie, if_true, if_false] <;>
              rw [updFold_before_stuck t _ (by simp)] <;>
              simp [specBefore, List.takeWhile_cons, hch]
          | false =>
            rw [updStep_other (u, "before") l hh hsv hdv hpv, ih]
            have hch : isChangeLine l = false := by simp [isChangeLine, hdv, hpv]
            simp [specBefore, List.takeWhile_cons, List.filter_cons, hch, hsv]

/-- The four reachable modes of the `context_after` accumulation: seeking
the switching `+` line (sections `before`/`changes` with nothing collected),
after-mode with nothing collected, after-mode mid-run, and the terminal
mode (change section with a non-empty collection, which never grows
again). -/
theorem updFold_after_main (body : List String) :
    (∀ (u : UpdateParts) (sec : String), (sec = "before" ∨ sec = "changes") →
      u.context_after = [] →
      ((body.foldl updStep (u, sec)).1).context_after = specAfterSeek body) ∧
    (∀ u : UpdateParts, u.context_after = [] →
      ((body.foldl updStep (u, "after")).1).context_after = specAfterCollect body) ∧
    (∀ u : UpdateParts, u.context_after ≠ [] →
      ((body.foldl updStep (u, "after")).1).context_after =
        u.context_after ++ specAfterRun body) ∧
    (∀ (u : UpdateParts) (sec : String), (sec = "before" ∨ sec = "changes") →
      u.context_after ≠ [] →
      ((body.foldl updStep (u, sec)).1).context_after = u.context_after) := by
  induction body with
  | nil =>
    refine ⟨fun u sec _ he => ?_, fun u he => ?_, fun u _ => ?_, fun u sec _ _ => rfl⟩
    · simpa [specAfterSeek] using he
    · simpa [specAfterCollect] using he
    · simp [specAfterRun]
  | cons l t ih =>
    obtain ⟨ihS, ihC, ihR, ihD⟩ := ih
    have hplusEmpty : ∀ u : UpdateParts, u.context_after = [] →
        ((u, "x").1.context_after.isEmpty : Bool) = true := by
      intro u he; simp [he]
    refine ⟨?_, ?_, ?_, ?_⟩
    · -- seek mode
      intro u sec hsec hemp
      rw [List.foldl_cons]
      cases hh : isHeaderLine l with
      | true =>
        rw [updStep_header (u, sec) l hh]
        refine Eq.trans (ihS { u with context_header := some (pyStrip l) } sec hsec hemp) ?_
        simp [specAfterSeek, header_not_plus hh]
      | false =>
        cases hsv : strStarts l " " with
        | true =>
          have hpf := ((rawHead_class l).1 hsv).2
          rw [updStep_space (u, sec) l hh hsv]
          rcases hsec with h2 | h2 <;> subst h2 <;> simp
          · refine Eq.trans (ihS { u with context_before :=
              u.context_before ++ [String.mk l.data.tail] } "before" (Or.inl rfl) hemp) ?_
            simp [specAfterSeek, hpf]
          · refine Eq.trans (ihS u "changes" (Or.inr rfl) hemp) ?_
            simp [specAfterSeek, hpf]
        | false =>
          cases hdv : strStarts l "-" with
          | true =>
            have hpf := ((rawHead_class l).2.1 hdv).2.1
            rw [updStep_dash (u, sec) l hdv]
            refine Eq.trans (ihS { u with removed_lines :=
              u.removed_lines ++ [String.mk l.data.tail] } "changes" (Or.inr rfl) hemp) ?_
            simp [specAfterSeek, hpf]
          | false =>
            cases hpv : strStarts l "+" with
            | true =>
              rw [updStep_plus (u, sec) l hpv]
              have hie : ((u, sec).1.context_after.isEmpty : Bool) = true := by simp [hemp]
              rw [hie]
              simp only [if_true]
              refine Eq.trans (ihC { u with added_lines :=
                u.added_lines ++ [String.mk l.data.tail] } hemp) ?_
              simp [specAfterSeek, hpv]
            | false =>
              rw [updStep_other (u, sec) l hh hsv hdv hpv]
              refine Eq.trans (ihS u sec hsec hemp) ?_
              simp [specAfterSeek, hpv]
    · -- collect mode
      intro u hemp
      rw [List.foldl_cons]
      cases hh : isHeaderLine l with
      | true =>
        rw [updStep_header (u, "after") l hh]
        refine Eq.trans (ihC { u with context_header := some (pyStrip l) } hemp) ?_
        simp [specAfterCollect, hh]
      | false =>
        cases hsv : strStarts l " " with
        | true =>
          rw [updStep_space (u, "after") l hh hsv]
          simp only [show (("after" : String) == "before") = false from rfl,
            show (("after" : String) == "after") = true from rfl,
            Bool.false_eq_true, if_false, if_true]
          refine Eq.trans (ihR { u with context_after :=
            u.context_after ++ [String.mk l.data.tail] } (by simp)) ?_
          show (u.context_after ++ [String.mk l.data.tail]) ++ specAfterRun t =
            specAfterCollect (l :: t)
          rw [hemp]
          simp [specAfterCollect, hh, hsv]
        | false =>
          cases hdv : strStarts l "-" with
          | true =>
            rw [updStep_dash (u, "after") l hdv]
            refine Eq.trans (ihS { u with removed_lines :=
              u.removed_lines ++ [String.mk l.data.tail] } "changes" (Or.inr rfl) hemp) ?_
            simp [specAfterCollect, hh, hsv, hdv]
          | false =>
            cases hpv : strStarts l "+" with
            | true =>
              rw [updStep_plus (u, "after") l hpv]
              have hie : ((u, "after").1.context_after.isEmpty : Bool) = true := by
                simp [hemp]
              rw [hie]
              simp only [if_true]
              refine Eq.trans (ihC { u with added_lines :=
                u.added_lines ++ [String.mk l.data.tail] } hemp) ?_
              simp [specAfterCollect, hh, hsv, hdv]
            | false =>
              rw [updStep_other (u, "after") l hh hsv hdv hpv]
              refine Eq.trans (ihC u hemp) ?_
              simp [specAfterCollect, hh, hsv, hdv]
    · -- run mode
      intro u hne
      rw [List.foldl_cons]
      cases hh : isHeaderLine l with
      | true =>
        rw [updStep_header (u, "after") l hh]
        refine Eq.trans (ihR { u with context_header := some (pyStrip l) } hne) ?_
        simp [specAfterRun, hh]
      | false =>
        cases hsv : strStarts l " " with
        | true =>
          rw [updStep_space (u, "after") l hh hsv]
          simp only [show (("after" : String) == "before") = false from rfl,
            show (("after" : String) == "after") = true from rfl,
            Bool.false_eq_true, if_false, if_true]
          refine Eq.trans (ihR { u with context_after :=
            u.context_after ++ [String.mk l.data.tail] } (by simp)) ?_
          show (u.context_after ++ [String.mk l.data.tail]) ++ specAfterRun t =
            u.context_after ++ specAfterRun (l :: t)
          simp [specAfterRun, hh, hsv]
        | false =>
          cases hdv : strStarts l "-" with
          | true =>
            rw [updStep_dash (u, "after") l hdv]
            refine Eq.trans (ihD { u with removed_lines :=
              u.removed_lines ++ [String.mk l.data.tail] } "changes" (Or.inr rfl) hne) ?_
            simp [specAfterRun, hh, hsv, isChangeLine, hdv]
          | false =>
            cases hpv : strStarts l "+" with
            | true =>
              rw [updStep_plus (u, "after") l hpv]
              have hie : ((u, "after").1.context_after.isEmpty : Bool) = false := by
                cases hq : u.context_after.isEmpty
                · rfl
                · exact absurd (List.isEmpty_iff.mp hq) hne
              rw [hie]
              simp only [Bool.false_eq_true, if_false]
              refine Eq.trans (ihD { u with added_lines :=
                u.added_lines ++ [String.mk l.data.tail] } "changes" (Or.inr rfl) hne) ?_
              simp [specAfterRun, hh, hsv, isChangeLine, hpv]
            | false =>
              rw [updStep_other (u, "after") l hh hsv hdv hpv]
              refine Eq.trans (ihR u hne) ?_
              simp [specAfterRun, hh, hsv, isChangeLine, hdv, hpv]
    · -- terminal mode
      intro u sec hsec hne
      rw [List.foldl_cons]
      cases hh : isHeaderLine l with
      | true =>
        rw [updStep_header (u, sec) l hh]
        exact ihD { u with context_header := some (pyStrip l) } sec hsec hne
      | false =>
        cases hsv : strStarts l " " with
        | true =>
          rw [updStep_space (u, sec) l hh hsv]
          rcases hsec with h2 | h2 <;> subst h2 <;> simp
          · exact ihD { u with context_before :=
              u.context_before ++ [String.mk l.data.tail] } "before" (Or.inl rfl) hne
          · exact ihD u "changes" (Or.inr rfl) hne
        | false =>
          cases hdv : strStarts l "-" with
          | true =>
            rw [updStep_dash (u, sec) l hdv]
            exact ihD { u with removed_lines :=
              u.removed_lines ++ [String.mk l.data.tail] } "changes" (Or.inr rfl) hne
          | false =>
            cases hpv : strStarts l "+" with
            | true =>
              rw [updStep_plus (u, sec) l hpv]
              have hie : ((u, sec).1.context_after.isEmpty : Bool) = false := by
                cases hq : u.context_after.isEmpty
                · rfl
                · exact absurd (List.isEmpty_iff.mp hq) hne
              rw [hie]
              simp only [Bool.false_eq_true, if_false]
              exact ihD { u with added_lines :=
                u.added_lines ++ [String.mk l.data.tail] } "changes" (Or.inr rfl) hne
            | false =>
              rw [updStep_other (u, sec) l hh hsv hdv hpv]
              exact ihD u sec hsec hne

/-- C3 (amended): the update-hunk body classifier strips the prefix of
every `-` line into `removed_lines` and every `+` line into `added_lines`,
in order; space lines before the first change line go to `context_before`;
`@@ ... @@` lines only set `context_header` (last one wins); and — unlike
the original claim — `context_after` receives space lines only while the
parser is in after-mode, which is entered at a `+` line seen while
`context_after` is still empty, survives non-change lines, and is left for
good at the next change line once something was collected; space lines
following a `-` line (with no interposed `+`) are discarded. -/
theorem update_body_classification_amended (body : List String) :
    (parseUpdateBody body).context_header = specHeader body ∧
    (parseUpdateBody body).context_before = specBefore body ∧
    (parseUpdateBody body).removed_lines = specRemoved body ∧
    (parseUpdateBody body).added_lines = specAdded body ∧
    (parseUpdateBody body).context_after = specAfter body := by
  unfold parseUpdateBody
  refine ⟨?_, ?_, ?_, ?_, ?_⟩
  · rw [updFold_header_eq body ({}, "before")]
    cases hsp : specHeader body <;> simp
  · rw [updFold_before_run body {}]
    simp
  · rw [(updFold_removed_added body ({}, "before")).1]
    simp
  · rw [(updFold_removed_added body ({}, "before")).2]
    simp
  · exact (updFold_after_main body).1 {} "before" (Or.inl rfl) rfl

/-- Membership in a descending insertion. -/
theorem mem_insertDesc {x a : Suggestion} {l : List Suggestion} :
    a ∈ insertDesc x l ↔ a = x ∨ a ∈ l := by
  induction l with
  | nil => simp [insertDesc]
  | cons y ys ih =>
    rw [insertDesc]
    split
    · simp [List.mem_cons]
    · simp only [List.mem_cons, ih]
      tauto

/-- The descending sort permutes membership. -/
theorem mem_sortDesc {a : Suggestion} {l : List Suggestion} :
    a ∈ sortDesc l ↔ a ∈ l := by
  induction l with
  | nil => simp [sortDesc]
  | cons y ys ih => simp [sortDesc, mem_insertDesc, ih]

/-- Inserting into a descending list keeps it descending. -/
theorem pairwise_insertDesc (x : Suggestion) (l : List Suggestion)
    (hl : l.Pairwise (fun a b => suggestionOverlap b ≤ suggestionOverlap a)) :
    (insertDesc x l).Pairwise (fun a b => suggestionOverlap b ≤ suggestionOverlap a) := by
  induction l with
  | nil => simp [insertDesc]
  | cons y ys ih =>
    obtain ⟨hy, hys⟩ := List.pairwise_cons.mp hl
    rw [insertDesc]
    split
    · next hxy =>
      rw [List.pairwise_cons]
      refine ⟨fun b hb => ?_, hl⟩
      rcases List.mem_cons.mp hb with hb | hb
      · exact hb ▸ hxy
      · exact le_trans (hy b hb) hxy
    · next hxy =>
      rw [List.pairwise_cons]
      refine ⟨fun b hb => ?_, ih hys⟩
      rcases mem_insertDesc.mp hb with hb | hb
      · exact hb ▸ Nat.le_of_lt (Nat.lt_of_not_le hxy)
      · exact hy b hb

/-- The descending sort is descending. -/
theorem pairwise_sortDesc (l : List Suggestion) :
    (sortDesc l).Pairwise (fun a b => suggestionOverlap b ≤ suggestionOverlap a) := by
  induction l with
  | nil => simp [sortDesc]
  | cons y ys ih => exact pairwise_insertDesc y (sortDesc ys) ih

/-- C5 (amended): when no matching strategy locates the removed lines, the
update hunk fails with error "Could not locate code to replace" and at most
3 suggestions, sorted by overlap descending; each suggestion is a candidate
line whose *own* tokens share at least 40% of the significant tokens
(alphanumeric words longer than 3 characters) of the removed lines — the
±2-line window appears only as the reported context text — carrying the
1-based line number, that window text, and the overlapping token set. -/
theorem failed_match_suggestions_amended
    (fs : FS) (h : V4AHunk) (content : String)
    (hact : h.action = .update)
    (hread : fsRead fs h.file_path = some content)
    (hloc : locateUpdate (splitLines content) h = none) :
    (applyOneHunk fs h false).1.success = false ∧
    (applyOneHunk fs h false).1.error = some "Could not locate code to replace" ∧
    (applyOneHunk fs h false).1.suggestions =
      suggestSimilarCode (splitLines content) h.removed_lines ∧
    (applyOneHunk fs h false).2.1 = fs ∧
    (suggestSimilarCode (splitLines content) h.removed_lines).length ≤ 3 ∧
    (∀ s ∈ suggestSimilarCode (splitLines content) h.removed_lines,
      ∃ i line, (splitLines content)[i]? = some line ∧
        ∃ ov, ov = (keyTokensOf h.removed_lines).filter
            (fun t => (tokensOf line).contains t) ∧
          5 * ov.length ≥ 2 * (keyTokensOf h.removed_lines).length ∧
          s = Suggestion.candidate (i + 1) (windowText (splitLines content) i) ov ov.length) ∧
    (suggestSimilarCode (splitLines content) h.removed_lines).Pairwise
      (fun a b => suggestionOverlap b ≤ suggestionOverlap a) := by
  refine ⟨?_, ?_, ?_, ?_, ?_, ?_, ?_⟩
  · simp [applyOneHunk, hact, applyUpdate, hread, hloc]
  · simp [applyOneHunk, hact, applyUpdate, hread, hloc]
  · simp [applyOneHunk, hact, applyUpdate, hread, hloc]
  · simp [applyOneHunk, hact, applyUpdate, hread, hloc]
  · unfold suggestSimilarCode
    split
    · simp
    · dsimp only
      split
      · simp
      · exact List.length_take_le 3 _
  · intro s hs
    unfold suggestSimilarCode at hs
    split at hs
    · simp at hs
    · dsimp only at hs
      split at hs
      · simp at hs
      · have hs2 : s ∈ sortDesc ((List.range (splitLines content).length).filterMap
            (candidateAt (keyTokensOf h.removed_lines) (splitLines content))) :=
          (List.take_sublist 3 _).subset hs
        have hs3 := mem_sortDesc.mp hs2
        obtain ⟨i, hi, hc⟩ := List.mem_filterMap.mp hs3
        unfold candidateAt at hc
        cases hline : (splitLines content)[i]? with
        | none => rw [hline] at hc; exact absurd hc (by simp)
        | some line =>
          rw [hline] at hc
          simp only at hc
          split at hc
          · next hthr =>
            refine ⟨i, line, hline, _, rfl, hthr, ?_⟩
            exact (Option.some_inj.mp hc).symm
          · exact absurd hc (by simp)
  · unfold suggestSimilarCode
    split
    · simp
    · dsimp only
      split
      · simp
      · exact List.Pairwise.sublist (List.take_sublist 3 _) (pairwise_sortDesc _)

/-- Witness for C5 at a file whose first line shares four of the five
significant tokens of the removed line. -/
theorem failed_match_suggestions_amended_witness :
    (applyOneHunk [("s.py", "aaaa bbbb cccc dddd\nx")] suggestionWitnessHunk false).1.error =
      some "Could not locate code to replace" ∧
    (applyOneHunk [("s.py", "aaaa bbbb cccc dddd\nx")] suggestionWitnessHunk false).1.suggestions =
      suggestSimilarCode (splitLines "aaaa bbbb cccc dddd\nx") ["aaaa bbbb cccc dddd eeee"] ∧
    (suggestSimilarCode (splitLines "aaaa bbbb cccc dddd\nx")
      ["aaaa bbbb cccc dddd eeee"]).length ≤ 3 := by
  have hmain := failed_match_suggestions_amended
    [("s.py", "aaaa bbbb cccc dddd\nx")] suggestionWitnessHunk "aaaa bbbb cccc dddd\nx"
    rfl (by decide) (by decide)
  exact ⟨hmain.2.1, hmain.2.2.1, hmain.2.2.2.2.1⟩

end V4A
